import Mathlib

/-!
Verification of the Hyperliquid consensus bot core.

Shallow embedding of the consensus pipeline of `hl_consensus.py`
(position rows, consensus detection, signal fingerprints, dedup state,
poll-cycle dispatch), of the Telegram command handlers
(`process_telegram_command`), and of the `PATCH /config` endpoint of
`app.py`.  Sizes and prices are modelled as rationals; optional fields
as `Option`.
-/

namespace HLBot

/-- Side of a position: `long` for positive size, `short` for negative size. -/
inductive Side
  | long
  | short
deriving DecidableEq, Repr

/-- One sampled wallet row, reduced to the fields the consensus/dedup logic
reads: the wallet address and the (optional) signed position size `szi`. -/
structure Row where
  addr : String
  szi : Option ℚ
deriving DecidableEq, Repr

/-- Side determination from the optional size, as in `ConsensusEngine.loop`
(lines 1019-1024): `long` if `szi > 0`, `short` if `szi < 0`, else none.
The snapshot path (line 935) computes the same function via truthiness. -/
def sideOf : Option ℚ → Option Side
  | none => none
  | some s => if 0 < s then some Side.long else if s < 0 then some Side.short else none

/-- Side of a row. -/
def Row.side (r : Row) : Option Side := sideOf r.szi

/-- Rows whose side is `long`, as `[r for r in rows if r.get("side") == "long"]`. -/
def longRows (rows : List Row) : List Row :=
  rows.filter fun r => r.side = some Side.long

/-- Rows whose side is `short`. -/
def shortRows (rows : List Row) : List Row :=
  rows.filter fun r => r.side = some Side.short

/-- Rows of a given side. -/
def sideRows (side : Side) (rows : List Row) : List Row :=
  match side with
  | Side.long => longRows rows
  | Side.short => shortRows rows

/-- A candidate consensus signal, as the dict built in `ConsensusEngine.loop`
(lines 1062-1082), restricted to the fields the dedup logic reads. -/
structure Signal where
  coin : String
  side : Side
  count : ℕ
  threshold : ℕ
  rows : List Row
deriving DecidableEq, Repr

/-- Builds the signal dict for one side. -/
def mkSignal (coin : String) (side : Side) (srows : List Row) (t : ℕ) : Signal :=
  ⟨coin, side, srows.length, t, srows⟩

/-- Candidate signals of one coin for one cycle, as `signals_to_send` in
`ConsensusEngine.loop` (lines 1060-1082): the long signal is appended first
when `long_count >= consensus`, then the short signal when
`short_count >= consensus`. -/
def candidateSignals (coin : String) (rows : List Row) (t : ℕ) : List Signal :=
  (if t ≤ (longRows rows).length then [mkSignal coin Side.long (longRows rows) t] else [])
    ++ (if t ≤ (shortRows rows).length then [mkSignal coin Side.short (shortRows rows) t] else [])

/-- Floor of a rational, written out explicitly on numerator and
denominator so that it evaluates by kernel reduction. -/
def ratFloor (q : ℚ) : ℤ := Int.fdiv q.num (q.den : ℤ)

/-- Round-half-to-even of a rational to an integer, the semantics of Python's
builtin `round` on an exactly-representable value. -/
def roundHalfEven (q : ℚ) : ℤ :=
  if q - (ratFloor q : ℚ) < 1 / 2 then ratFloor q
  else if 1 / 2 < q - (ratFloor q : ℚ) then ratFloor q + 1
  else if ratFloor q % 2 = 0 then ratFloor q else ratFloor q + 1

/-- Python's `round(q, 4)`: rounding to 4 decimal places. -/
def round4 (q : ℚ) : ℚ := (roundHalfEven (q * 10000) : ℚ) / 10000

/-- The `(addr, round(abs(szi), 4))` pairs collected by
`ConsensusEngine._get_signal_key` (lines 886-891): a row contributes a pair
iff its size is present and `abs(szi) > 0.0001`. -/
def walletData (rows : List Row) : List (String × ℚ) :=
  rows.filterMap fun r =>
    match r.szi with
    | some s => if 1 / 10000 < |s| then some (r.addr, round4 |s|) else none
    | none => none

/-- Boolean lexicographic order on `(address, rounded size)` pairs, standing
for the lexicographic comparison of the joined `"addr:size"` strings that
Python's `sorted` applies in `_get_signal_key`. -/
def pairLE (a b : String × ℚ) : Bool :=
  decide (a.1 < b.1) || (decide (a.1 = b.1) && decide (a.2 ≤ b.2))

/-- A signal fingerprint: the data determining the string
`f"{coin}:{side}:{len(wallet_data)}:{','.join(sorted(wallet_data))}"`
returned by `ConsensusEngine._get_signal_key` (line 893). -/
structure Fingerprint where
  coin : String
  side : Side
  n : ℕ
  pairs : List (String × ℚ)
deriving DecidableEq, Repr

/-- `ConsensusEngine._get_signal_key` (lines 881-893). -/
def getSignalKey (s : Signal) : Fingerprint :=
  let wd := walletData s.rows
  ⟨s.coin, s.side, wd.length, wd.mergeSort pairLE⟩

/-- Key of the dedup dictionary `last_signals`: the pair `(coin, side)`,
determining the Python key string `f"{coin}_{side}"`. -/
abbrev SignalKey := String × Side

/-- The dedup dictionary `self.last_signals`, as an association list whose
most recent binding for a key shadows older ones (dict assignment). -/
abbrev DedupState := List (SignalKey × Fingerprint)

/-- Dictionary lookup `self.last_signals.get(key)`. -/
def dedupLookup : DedupState → SignalKey → Option Fingerprint
  | [], _ => none
  | (k, f) :: rest, key => if k = key then some f else dedupLookup rest key

/-- Dictionary assignment `self.last_signals[key] = fingerprint`. -/
def dedupStore (st : DedupState) (key : SignalKey) (fp : Fingerprint) : DedupState :=
  (key, fp) :: st

/-- `ConsensusEngine._has_signal_changed` (lines 895-903): true when no
fingerprint is stored for the key or the stored one differs. -/
def hasSignalChanged (st : DedupState) (key : SignalKey) (s : Signal) : Bool :=
  match dedupLookup st key with
  | none => true
  | some oldKey => decide (getSignalKey s ≠ oldKey)

/-- The per-signal body of the dispatch loop (`ConsensusEngine.loop` lines
1085-1108): dispatch iff the signal changed, storing its fingerprint under
`f"{coin}_{side}"` exactly when dispatching.  Returns the dispatch decision
and the updated dedup state. -/
def processOneSignal (st : DedupState) (s : Signal) : Bool × DedupState :=
  if hasSignalChanged st (s.coin, s.side) s then
    (true, dedupStore st (s.coin, s.side) (getSignalKey s))
  else
    (false, st)

/-- `for signal in signals_to_send: ...` (lines 1085-1108): processes the
candidate signals in order, accumulating the dispatched ones. -/
def processSignals (st : DedupState) : List Signal → List Signal × DedupState
  | [] => ([], st)
  | s :: rest =>
    let r1 := processOneSignal st s
    let r2 := processSignals r1.2 rest
    ((if r1.1 then [s] else []) ++ r2.1, r2.2)

/-- One coin's portion of a poll cycle: build the candidate signals and run
them through the dedup dispatch loop. -/
def processCoin (st : DedupState) (coin : String) (rows : List Row) (t : ℕ) :
    List Signal × DedupState :=
  processSignals st (candidateSignals coin rows t)

/-- One full poll cycle over the configured coins in order
(`for coin in coins`, line 1003), given the sampled rows of each coin. -/
def processCycle (st : DedupState) : List (String × List Row) → ℕ → List Signal × DedupState
  | [], _ => ([], st)
  | (c, rows) :: rest, t =>
    let r1 := processCoin st c rows t
    let r2 := processCycle r1.2 rest t
    (r1.1 ++ r2.1, r2.2)

/-- Dedup state after a sequence of poll cycles for one coin, each cycle
given by its sampled rows. -/
def runCoinCycles (st : DedupState) (coin : String) (t : ℕ) : List (List Row) → DedupState
  | [] => st
  | rows :: rest => runCoinCycles (processCoin st coin rows t).2 coin t rest

/-- Notional value as computed in `ConsensusEngine.loop` line 1026 and in the
`/last` handler line 481:
`value = (abs(szi) * px) if (szi is not None and px is not None) else None`. -/
def loopValue : Option ℚ → Option ℚ → Option ℚ
  | some szi, some px => some (|szi| * px)
  | _, _ => none

/-- Unrealized PnL as computed in `ConsensusEngine.loop` line 1027 and in the
`/last` handler line 482: `((px - entry) * szi)` when size, entry and mark
are all present, else `None`. -/
def loopUpnl : Option ℚ → Option ℚ → Option ℚ → Option ℚ
  | some szi, some entry, some px => some ((px - entry) * szi)
  | _, _, _ => none

/-- Notional value in `compute_last_snapshot` line 936:
`value = (abs(szi) * px) if szi and px else None` — Python truthiness, so a
present-but-zero operand also yields `None`. -/
def snapValue : Option ℚ → Option ℚ → Option ℚ
  | some szi, some px => if szi ≠ 0 ∧ px ≠ 0 then some (|szi| * px) else none
  | _, _ => none

/-- Unrealized PnL in `compute_last_snapshot` line 937:
`upnl = ((px - entry) * szi) if szi and entry and px else None`. -/
def snapUpnl : Option ℚ → Option ℚ → Option ℚ → Option ℚ
  | some szi, some entry, some px =>
    if szi ≠ 0 ∧ entry ≠ 0 ∧ px ≠ 0 then some ((px - entry) * szi) else none
  | _, _, _ => none

/-- Unrealized PnL in `send_stats_report` line 846:
`upnl = ((px - entry) * szi) if (entry and px) else 0` — falls back to the
number 0, never `None`, and treats a zero entry or mark as absent. -/
def statsUpnl (entry px : Option ℚ) (szi : ℚ) : ℚ :=
  match entry, px with
  | some e, some p => if e ≠ 0 ∧ p ≠ 0 then (p - e) * szi else 0
  | _, _ => 0

/-- Configuration slice read and mutated by the claims under study. -/
structure Config where
  wallets : List String
  symbols : List String
  consensus_count : ℤ
  poll_seconds : ℤ
deriving DecidableEq, Repr

/-- The `/set_consensus` handler (`process_telegram_command` lines 389-406):
a missing or non-numeric argument is `none`; a value `< 1` raises and is
rejected; otherwise `consensus_count` is set.  Returns the new configuration
and whether the mutation was accepted. -/
def setConsensusCommand (cfg : Config) (arg : Option ℤ) : Config × Bool :=
  match arg with
  | none => (cfg, false)
  | some value =>
    if value < 1 then (cfg, false)
    else ({cfg with consensus_count := value}, true)

/-- One key of the `PATCH /config` handler (`app.py` lines 469-486) for an
integer-valued payload entry: the numeric keys are assigned
`_to_int(v, ...)`, which is the identity on an integer payload, with no
range check; unrelated keys leave these fields unchanged. -/
def patchIntKey (c : Config) (k : String) (v : ℤ) : Config :=
  if k = "consensus_count" then {c with consensus_count := v}
  else if k = "poll_seconds" then {c with poll_seconds := v}
  else c

/-- The `PATCH /config` handler (`app.py` lines 462-491) restricted to
integer-valued patch entries: folds every patch item into the current
configuration and stores the result unconditionally. -/
def patchConfig (current : Config) (patch : List (String × ℤ)) : Config :=
  patch.foldl (fun c kv => patchIntKey c kv.1 kv.2) current

/-- Python's `str.lower()` on the character sequence of a string (ASCII
case mapping, which covers command texts and hex addresses). -/
def strLower (s : String) : String := ⟨s.data.map Char.toLower⟩

/-- Python's `str.strip()`: drop whitespace from both ends. -/
def strTrim (s : String) : String :=
  ⟨((s.data.dropWhile Char.isWhitespace).reverse.dropWhile Char.isWhitespace).reverse⟩

/-- Character-list test of whether the first list starts with the second. -/
def charsStartWith : List Char → List Char → Bool
  | _, [] => true
  | [], _ :: _ => false
  | c :: cs, d :: ds => (c == d) && charsStartWith cs ds

/-- Python's `str.startswith(pat)`. -/
def strStartsWith (s pat : String) : Bool := charsStartWith s.data pat.data

/-- Hexadecimal digit test, as the character class `[a-fA-F0-9]`. -/
def isHexDigitChar (c : Char) : Bool :=
  (decide ('0' ≤ c) && decide (c ≤ '9'))
    || (decide ('a' ≤ c) && decide (c ≤ 'f'))
    || (decide ('A' ≤ c) && decide (c ≤ 'F'))

/-- The wallet pattern `_WALLET_RE = ^0x[a-fA-F0-9]{40}$` (line 27). -/
def isValidWallet (s : String) : Bool :=
  match s.data with
  | '0' :: 'x' :: rest => (rest.length == 40) && rest.all isHexDigitChar
  | _ => false

/-- Reply of the `/add_wallet` handler. -/
inductive AddReply
  | emptyArg
  | invalidFormat
  | duplicate
  | added
deriving DecidableEq, Repr

/-- The `/add_wallet` handler (`process_telegram_command` lines 286-311):
reject an empty argument, reject an argument failing the wallet pattern,
reject an argument already present (exact string membership `wallet in
wallets`), otherwise append.  Returns the new wallet list and the reply. -/
def addWallet (wallets : List String) (arg : String) : List String × AddReply :=
  if arg = "" then (wallets, AddReply.emptyArg)
  else if isValidWallet arg = false then (wallets, AddReply.invalidFormat)
  else if arg ∈ wallets then (wallets, AddReply.duplicate)
  else (wallets ++ [arg], AddReply.added)

/-- Reply of the `/remove_wallet` handler. -/
inductive RemoveReply
  | emptyArg
  | notFound
  | removed (w : String)
deriving DecidableEq, Repr

/-- The match test of the `/remove_wallet` handler (line 327):
`w.lower() == wallet.lower() or w.lower().startswith(wallet.lower())`. -/
def matchesRemove (stored query : String) : Bool :=
  (strLower stored == strLower query) || strStartsWith (strLower stored) (strLower query)

/-- The `/remove_wallet` handler (`process_telegram_command` lines 314-341):
find the first stored wallet matching the argument case-insensitively
(full address or leading part) and remove it. -/
def removeWallet (wallets : List String) (arg : String) : List String × RemoveReply :=
  if arg = "" then (wallets, RemoveReply.emptyArg)
  else
    match wallets.find? (fun w => matchesRemove w arg) with
    | none => (wallets, RemoveReply.notFound)
    | some w => (wallets.erase w, RemoveReply.removed w)

/-- Outcome of routing one inbound text through `process_telegram_command`. -/
inductive Cmd
  | help
  | examples
  | addWalletCmd
  | removeWalletCmd
  | addCoinCmd
  | removeCoinCmd
  | setConsensusCmd
  | setIntervalCmd
  | reloadCmd
  | lastCmd
  | statusCmd
  | configCmd
  | statsCmd
  | unrecognized
deriving DecidableEq, Repr

/-- The preamble `text_lower = text.strip().lower()` of
`process_telegram_command` (line 160). -/
def lowerTrim (text : String) : String := strLower (strTrim text)

/-- The dispatch chain of `process_telegram_command` (lines 158-600) in
source order.  The handlers down to `/reload` compare against
`text_lower = text.strip().lower()`; the `/last`, `/status`, `/config` and
`/stats` branches compare the raw `text` parameter instead (lines 443, 545,
569, 594); anything else reaches the final "Comando no reconocido" reply. -/
def routeCommand (text : String) : Cmd :=
  if lowerTrim text = "/start" ∨ lowerTrim text = "/help" then Cmd.help
  else if lowerTrim text = "/commands" ∨ lowerTrim text = "/ejemplos"
      ∨ lowerTrim text = "/examples" then
    Cmd.examples
  else if strStartsWith (lowerTrim text) "/add_wallet " then Cmd.addWalletCmd
  else if strStartsWith (lowerTrim text) "/remove_wallet " then Cmd.removeWalletCmd
  else if strStartsWith (lowerTrim text) "/add_coin " then Cmd.addCoinCmd
  else if strStartsWith (lowerTrim text) "/remove_coin " then Cmd.removeCoinCmd
  else if strStartsWith (lowerTrim text) "/set_consensus " then Cmd.setConsensusCmd
  else if strStartsWith (lowerTrim text) "/set_interval " then Cmd.setIntervalCmd
  else if lowerTrim text = "/reload" ∨ lowerTrim text = "/refresh"
      ∨ lowerTrim text = "/update" then
    Cmd.reloadCmd
  else if text = "/last" ∨ text = "/latest" then Cmd.lastCmd
  else if text = "/status" then Cmd.statusCmd
  else if text = "/config" then Cmd.configCmd
  else if text = "/stats" then Cmd.statsCmd
  else Cmd.unrecognized

/-!
### Helper lemmas

Order facts about `pairLE` (the comparison Python's `sorted` applies to the
fingerprint entries), canonicity of `mergeSort` under permutation, and
basic facts about the dedup dictionary.
-/

theorem pairLE_iff (a b : String × ℚ) :
    pairLE a b = true ↔ a.1 < b.1 ∨ (a.1 = b.1 ∧ a.2 ≤ b.2) := by
  simp [pairLE]

theorem pairLE_trans (a b c : String × ℚ) :
    pairLE a b → pairLE b c → pairLE a c := by
  simp only [pairLE_iff]
  rintro (h1 | ⟨h1, h1'⟩) (h2 | ⟨h2, h2'⟩)
  · exact Or.inl (lt_trans h1 h2)
  · exact Or.inl (lt_of_lt_of_eq h1 h2)
  · exact Or.inl (lt_of_eq_of_lt h1 h2)
  · exact Or.inr ⟨h1.trans h2, le_trans h1' h2'⟩

theorem pairLE_total (a b : String × ℚ) : pairLE a b || pairLE b a := by
  simp only [Bool.or_eq_true, pairLE_iff]
  rcases lt_trichotomy a.1 b.1 with h | h | h
  · exact Or.inl (Or.inl h)
  · rcases le_total a.2 b.2 with h' | h'
    · exact Or.inl (Or.inr ⟨h, h'⟩)
    · exact Or.inr (Or.inr ⟨h.symm, h'⟩)
  · exact Or.inr (Or.inl h)

theorem pairLE_antisymm (a b : String × ℚ) :
    pairLE a b = true → pairLE b a = true → a = b := by
  simp only [pairLE_iff]
  rintro (h1 | ⟨h1, h1'⟩) (h2 | ⟨h2, h2'⟩)
  · exact absurd h2 (lt_asymm h1)
  · exact absurd (lt_of_lt_of_eq h1 h2) (lt_irrefl _)
  · exact absurd (lt_of_lt_of_eq h2 h1) (lt_irrefl _)
  · exact Prod.ext h1 (le_antisymm h1' h2')

theorem mergeSort_pairLE_canonical {l1 l2 : List (String × ℚ)} (h : l1.Perm l2) :
    l1.mergeSort pairLE = l2.mergeSort pairLE := by
  haveI : IsAntisymm (String × ℚ) (fun a b => pairLE a b = true) := ⟨pairLE_antisymm⟩
  exact List.eq_of_perm_of_sorted
    ((List.mergeSort_perm l1 pairLE).trans (h.trans (List.mergeSort_perm l2 pairLE).symm))
    (List.sorted_mergeSort pairLE_trans pairLE_total l1)
    (List.sorted_mergeSort pairLE_trans pairLE_total l2)

/-- The dust filter of `_get_signal_key` (line 889), as a per-row test:
the size is present and `abs(szi) > 0.0001`. -/
def aboveDust (r : Row) : Bool :=
  match r.szi with
  | some v => decide (1 / 10000 < |v|)
  | none => false

/-- The `(addr, rounded size)` pair of one row, `none` for an absent size:
the data the spec compares signals by. -/
def roundedPair (r : Row) : String × Option ℚ :=
  (r.addr, r.szi.map fun v => round4 |v|)

/-- On rows that all pass the dust filter, `walletData` is the rounded pair
of every row in order. -/
theorem walletData_eq_of_aboveDust :
    ∀ rows : List Row, rows.all aboveDust = true →
      (rows.map roundedPair).filterMap (fun p => p.2.map fun q => (p.1, q)) = walletData rows := by
  intro rows
  induction rows with
  | nil => intro _; rfl
  | cons r rs ih =>
    intro h
    rw [List.all_cons, Bool.and_eq_true] at h
    obtain ⟨hr, hrs⟩ := h
    match hszi : r.szi with
    | none => rw [aboveDust, hszi] at hr; exact absurd hr (by simp)
    | some v =>
      rw [aboveDust, hszi, decide_eq_true_eq] at hr
      simp only [List.map_cons, List.filterMap_cons, roundedPair, hszi, walletData,
        Option.map_some, if_pos hr]
      rw [show (walletData rs : List (String × ℚ)) = rs.filterMap _ from rfl] at ih
      exact congrArg _ (ih hrs)

theorem dedupLookup_store_self (st : DedupState) (key : SignalKey) (fp : Fingerprint) :
    dedupLookup (dedupStore st key fp) key = some fp := by
  simp [dedupStore, dedupLookup]

theorem dedupLookup_store_other (st : DedupState) (key key' : SignalKey) (fp : Fingerprint)
    (h : key ≠ key') : dedupLookup (dedupStore st key fp) key' = dedupLookup st key' := by
  simp [dedupStore, dedupLookup, h]

unseal Rat.add Rat.mul Rat.sub Rat.inv List.merge List.mergeSort

theorem mem_candidateSignals_iff {s : Signal} {coin : String} {rows : List Row} {t : ℕ} :
    s ∈ candidateSignals coin rows t ↔
      (t ≤ (longRows rows).length ∧ s = mkSignal coin Side.long (longRows rows) t)
        ∨ (t ≤ (shortRows rows).length ∧ s = mkSignal coin Side.short (shortRows rows) t) := by
  by_cases h1 : t ≤ (longRows rows).length <;> by_cases h2 : t ≤ (shortRows rows).length <;>
    simp [candidateSignals, h1, h2]

theorem processSignals_out_sublist :
    ∀ (sigs : List Signal) (st : DedupState), ((processSignals st sigs).1).Sublist sigs := by
  intro sigs
  induction sigs with
  | nil => intro st; exact List.Sublist.refl _
  | cons s rest ih =>
    intro st
    show ((if (processOneSignal st s).1 then [s] else [])
        ++ (processSignals (processOneSignal st s).2 rest).1).Sublist (s :: rest)
    by_cases h : (processOneSignal st s).1
    · simp only [h, if_pos]
      exact (ih _).cons₂ s
    · simp only [h, if_neg, Bool.false_eq_true, not_false_eq_true, List.nil_append]
      exact (ih _).cons s

theorem mem_candidateSignals_coin {s : Signal} {coin : String} {rows : List Row} {t : ℕ}
    (h : s ∈ candidateSignals coin rows t) : s.coin = coin := by
  rcases mem_candidateSignals_iff.mp h with ⟨_, rfl⟩ | ⟨_, rfl⟩ <;> rfl

theorem mem_candidateSignals_count {s : Signal} {coin : String} {rows : List Row} {t : ℕ}
    (h : s ∈ candidateSignals coin rows t) : t ≤ (sideRows s.side rows).length := by
  rcases mem_candidateSignals_iff.mp h with ⟨hc, rfl⟩ | ⟨hc, rfl⟩ <;> exact hc

theorem processOneSignal_lookup_other (st : DedupState) (s : Signal) (key : SignalKey)
    (h : (s.coin, s.side) ≠ key) :
    dedupLookup (processOneSignal st s).2 key = dedupLookup st key := by
  unfold processOneSignal
  by_cases hc : hasSignalChanged st (s.coin, s.side) s
  · simp only [hc, if_pos]
    exact dedupLookup_store_other st _ key _ h
  · simp [hc]

theorem processSignals_lookup_preserved :
    ∀ (sigs : List Signal) (st : DedupState) (key : SignalKey),
      (∀ s ∈ sigs, (s.coin, s.side) ≠ key) →
      dedupLookup (processSignals st sigs).2 key = dedupLookup st key := by
  intro sigs
  induction sigs with
  | nil => intro st key _; rfl
  | cons s rest ih =>
    intro st key h
    show dedupLookup (processSignals (processOneSignal st s).2 rest).2 key = _
    rw [ih _ key fun x hx => h x (List.mem_cons_of_mem s hx)]
    exact processOneSignal_lookup_other st s key (h s (List.mem_cons_self s rest))

theorem processCoin_lookup_preserved (st : DedupState) (c : String) (rows : List Row) (t : ℕ)
    (side : Side) (h : (sideRows side rows).length < t) :
    dedupLookup (processCoin st c rows t).2 (c, side) = dedupLookup st (c, side) := by
  refine processSignals_lookup_preserved _ st (c, side) fun s hs hk => ?_
  have hside : s.side = side := congrArg Prod.snd hk
  exact absurd (hside ▸ mem_candidateSignals_count hs) (not_le.mpr h)

/-- C1: within one poll cycle, a candidate signal for side `S` of one symbol
is produced iff at least `threshold` of the symbol's rows have side `S`;
when both sides reach the threshold, both candidate signals are produced in
the same cycle (the long one and the short one). -/
theorem claim1_candidate_iff_count (coin : String) (rows : List Row) (t : ℕ) (side : Side)
    (_ht : 1 ≤ t) :
    ((∃ s ∈ candidateSignals coin rows t, s.side = side) ↔ t ≤ (sideRows side rows).length)
      ∧ (t ≤ (longRows rows).length → t ≤ (shortRows rows).length →
          candidateSignals coin rows t
            = [mkSignal coin Side.long (longRows rows) t,
               mkSignal coin Side.short (shortRows rows) t]) := by
  constructor
  · by_cases h1 : t ≤ (longRows rows).length <;> by_cases h2 : t ≤ (shortRows rows).length <;>
      cases side <;>
      simp [candidateSignals, sideRows, mkSignal, h1, h2]
  · intro h1 h2
    simp [candidateSignals, h1, h2]

/-- C1 witness: three wallets, two long and one short, threshold two. -/
theorem claim1_candidate_iff_count_witness :
    ((∃ s ∈ candidateSignals "BTC" [⟨"0xA", some 1⟩, ⟨"0xB", some 2⟩, ⟨"0xC", some (-1)⟩] 2,
        s.side = Side.long)
      ↔ 2 ≤ (sideRows Side.long [⟨"0xA", some 1⟩, ⟨"0xB", some 2⟩, ⟨"0xC", some (-1)⟩]).length)
      ∧ (2 ≤ (longRows [⟨"0xA", some 1⟩, ⟨"0xB", some 2⟩, ⟨"0xC", some (-1)⟩]).length →
          2 ≤ (shortRows [⟨"0xA", some 1⟩, ⟨"0xB", some 2⟩, ⟨"0xC", some (-1)⟩]).length →
          candidateSignals "BTC" [⟨"0xA", some 1⟩, ⟨"0xB", some 2⟩, ⟨"0xC", some (-1)⟩] 2
            = [mkSignal "BTC" Side.long
                (longRows [⟨"0xA", some 1⟩, ⟨"0xB", some 2⟩, ⟨"0xC", some (-1)⟩]) 2,
               mkSignal "BTC" Side.short
                (shortRows [⟨"0xA", some 1⟩, ⟨"0xB", some 2⟩, ⟨"0xC", some (-1)⟩]) 2]) :=
  claim1_candidate_iff_count "BTC" [⟨"0xA", some 1⟩, ⟨"0xB", some 2⟩, ⟨"0xC", some (-1)⟩] 2
    Side.long (by decide)

theorem walletData_append (l1 l2 : List Row) :
    walletData (l1 ++ l2) = walletData l1 ++ walletData l2 := by
  simp [walletData]

theorem walletData_cons_pass (a : String) (v : ℚ) (rows : List Row) (h : 1 / 10000 < |v|) :
    walletData (⟨a, some v⟩ :: rows) = (a, round4 |v|) :: walletData rows := by
  simp only [walletData, List.filterMap_cons]
  rw [if_pos h]

theorem walletData_cons_drop (a : String) (v : ℚ) (rows : List Row)
    (h : ¬(1 / 10000 < |v|)) :
    walletData (⟨a, some v⟩ :: rows) = walletData rows := by
  simp only [walletData, List.filterMap_cons]
  rw [if_neg h]

/-- A changed rounded size changes the fingerprint: replacing one stored
row's size `v` (above the dust filter, as every size entering the stored
fingerprint is) by any `v'` with a different 4-decimal rounding yields a
different `_get_signal_key` result — whether `v'` stays above the dust
filter (its pair changes) or drops to it or below (its pair disappears). -/
theorem getSignalKey_ne_of_size_change (s : Signal) (a : String) (v v' : ℚ)
    (pre post : List Row) (hrows : s.rows = pre ++ ⟨a, some v⟩ :: post)
    (hv : 1 / 10000 < |v|) (hne : round4 |v| ≠ round4 |v'|) :
    getSignalKey {s with rows := pre ++ ⟨a, some v'⟩ :: post} ≠ getSignalKey s := by
  intro hkey
  have hp := congrArg Fingerprint.pairs hkey
  simp only [getSignalKey] at hp
  have hperm : (walletData (pre ++ ⟨a, some v'⟩ :: post)).Perm (walletData s.rows) :=
    ((List.mergeSort_perm _ pairLE).symm.trans (hp ▸ List.mergeSort_perm _ pairLE))
  have hcount := hperm.countP_eq (fun x => decide (x = (a, round4 |v|)))
  rw [hrows] at hcount
  by_cases hd : 1 / 10000 < |v'|
  · rw [walletData_append, walletData_append, walletData_cons_pass a v _ hv,
      walletData_cons_pass a v' _ hd] at hcount
    have hbe : ¬((a, round4 |v'|) = (a, round4 |v|)) := fun hh => hne (congrArg Prod.snd hh).symm
    simp only [List.countP_append, List.countP_cons, decide_eq_true_eq, if_pos, if_neg, hbe,
      if_false, if_true] at hcount
    omega
  · rw [walletData_append, walletData_append, walletData_cons_pass a v _ hv,
      walletData_cons_drop a v' _ hd] at hcount
    simp only [List.countP_append, List.countP_cons, decide_eq_true_eq, if_pos, if_neg,
      if_false, if_true] at hcount
    omega

/-- C2: the dedup law of `_has_signal_changed` and the dispatch loop body:
a signal with no stored fingerprint for its `(symbol, side)` key dispatches
and stores its fingerprint; re-processing the same signal immediately after
a dispatch is suppressed and leaves the state unchanged; a variant in which
one wallet's size differs from the stored one beyond the 4-decimal rounding
dispatches and overwrites the stored fingerprint. -/
theorem claim2_dedup_law :
    (∀ (st : DedupState) (s : Signal),
        dedupLookup st (s.coin, s.side) = none →
        processOneSignal st s = (true, dedupStore st (s.coin, s.side) (getSignalKey s)))
      ∧ (∀ (st : DedupState) (s : Signal),
          (processOneSignal st s).1 = true →
          processOneSignal (processOneSignal st s).2 s = (false, (processOneSignal st s).2))
      ∧ (∀ (st : DedupState) (s : Signal) (a : String) (v v' : ℚ) (pre post : List Row),
          s.rows = pre ++ ⟨a, some v⟩ :: post →
          1 / 10000 < |v| →
          round4 |v| ≠ round4 |v'| →
          dedupLookup st (s.coin, s.side) = some (getSignalKey s) →
          (processOneSignal st {s with rows := pre ++ ⟨a, some v'⟩ :: post}).1 = true
            ∧ dedupLookup
                (processOneSignal st {s with rows := pre ++ ⟨a, some v'⟩ :: post}).2
                (s.coin, s.side)
              = some (getSignalKey {s with rows := pre ++ ⟨a, some v'⟩ :: post})) := by
  refine ⟨?_, ?_, ?_⟩
  · intro st s h
    simp [processOneSignal, hasSignalChanged, h]
  · intro st s h
    by_cases hc : hasSignalChanged st (s.coin, s.side) s
    · have hst : (processOneSignal st s).2 = dedupStore st (s.coin, s.side) (getSignalKey s) := by
        simp [processOneSignal, hc]
      rw [hst]
      simp [processOneSignal, hasSignalChanged, dedupLookup_store_self]
    · exact absurd h (by simp [processOneSignal, hc])
  · intro st s a v v' pre post hrows hv hne hlk
    have hkey := getSignalKey_ne_of_size_change s a v v' pre post hrows hv hne
    have hchg : hasSignalChanged st (s.coin, s.side) {s with rows := pre ++ ⟨a, some v'⟩ :: post}
        = true := by
      simp only [hasSignalChanged]
      rw [show ({s with rows := pre ++ ⟨a, some v'⟩ :: post} : Signal).coin = s.coin from rfl,
        show ({s with rows := pre ++ ⟨a, some v'⟩ :: post} : Signal).side = s.side from rfl, hlk]
      simp [hkey]
    constructor
    · simp [processOneSignal, hchg]
    · simp [processOneSignal, hchg, dedupLookup_store_self]

/-- C2 witness: one wallet, fresh state, repeat, then a size change from
`1` to `2`. -/
theorem claim2_dedup_law_witness :
    processOneSignal [] ⟨"BTC", Side.long, 1, 1, [⟨"0xA", some 1⟩]⟩
        = (true, dedupStore [] ("BTC", Side.long)
            (getSignalKey ⟨"BTC", Side.long, 1, 1, [⟨"0xA", some 1⟩]⟩))
      ∧ processOneSignal (processOneSignal [] ⟨"BTC", Side.long, 1, 1, [⟨"0xA", some 1⟩]⟩).2
            ⟨"BTC", Side.long, 1, 1, [⟨"0xA", some 1⟩]⟩
          = (false, (processOneSignal [] ⟨"BTC", Side.long, 1, 1, [⟨"0xA", some 1⟩]⟩).2)
      ∧ ((processOneSignal
            [(("BTC", Side.long), getSignalKey ⟨"BTC", Side.long, 1, 1, [⟨"0xA", some 1⟩]⟩)]
            ⟨"BTC", Side.long, 1, 1, [⟨"0xA", some 2⟩]⟩).1 = true
          ∧ dedupLookup (processOneSignal
              [(("BTC", Side.long), getSignalKey ⟨"BTC", Side.long, 1, 1, [⟨"0xA", some 1⟩]⟩)]
              ⟨"BTC", Side.long, 1, 1, [⟨"0xA", some 2⟩]⟩).2 ("BTC", Side.long)
            = some (getSignalKey ⟨"BTC", Side.long, 1, 1, [⟨"0xA", some 2⟩]⟩)) :=
  ⟨claim2_dedup_law.1 [] ⟨"BTC", Side.long, 1, 1, [⟨"0xA", some 1⟩]⟩ rfl,
   claim2_dedup_law.2.1 [] ⟨"BTC", Side.long, 1, 1, [⟨"0xA", some 1⟩]⟩ rfl,
   claim2_dedup_law.2.2
     [(("BTC", Side.long), getSignalKey ⟨"BTC", Side.long, 1, 1, [⟨"0xA", some 1⟩]⟩)]
     ⟨"BTC", Side.long, 1, 1, [⟨"0xA", some 1⟩]⟩ "0xA" 1 2 [] []
     rfl (by decide) (by decide) rfl⟩

theorem hasSignalChanged_store_other (st : DedupState) (k k' : SignalKey) (fp : Fingerprint)
    (s : Signal) (h : k ≠ k') :
    hasSignalChanged (dedupStore st k fp) k' s = hasSignalChanged st k' s := by
  simp [hasSignalChanged, dedupLookup_store_other st k k' fp h]

theorem processOneSignal_of_changed (st : DedupState) (s : Signal)
    (h : hasSignalChanged st (s.coin, s.side) s = true) :
    processOneSignal st s = (true, dedupStore st (s.coin, s.side) (getSignalKey s)) := by
  simp [processOneSignal, h]

theorem processSignals_pair (st : DedupState) (s1 s2 : Signal) :
    (processSignals st [s1, s2]).1
      = (if (processOneSignal st s1).1 then [s1] else [])
        ++ (if (processOneSignal (processOneSignal st s1).2 s2).1 then [s2] else []) := by
  show ((if (processOneSignal st s1).1 then [s1] else [])
      ++ ((if (processOneSignal (processOneSignal st s1).2 s2).1 then [s2] else []) ++ [])) = _
  rw [List.append_nil]

theorem candidateSignals_map_side (coin : String) (rows : List Row) (t : ℕ) :
    ((candidateSignals coin rows t).map Signal.side).Sublist [Side.long, Side.short] := by
  by_cases h1 : t ≤ (longRows rows).length <;> by_cases h2 : t ≤ (shortRows rows).length <;>
    simp only [candidateSignals, h1, h2, if_pos, if_neg, not_false_eq_true, if_true, if_false,
      List.nil_append, List.append_nil, List.map_cons, List.map_nil, List.singleton_append,
      mkSignal]
  · exact List.Sublist.refl _
  · exact (List.nil_sublist _).cons₂ Side.long
  · exact ((List.nil_sublist _).cons₂ Side.short).cons Side.long
  · exact List.nil_sublist _

/-- C8: within one poll cycle, symbols are processed in configured order
(the dispatched list of a cycle is the per-symbol dispatch lists
concatenated in configuration order), per symbol every dispatch list is
ordered long-then-short, and when both sides qualify and both pass dedup
the dispatch list is exactly the long signal followed by the short one. -/
theorem claim8_dispatch_order :
    (∀ (st : DedupState) (t : ℕ) (c : String) (rows : List Row)
        (rest : List (String × List Row)),
        (processCycle st ((c, rows) :: rest) t).1
          = (processCoin st c rows t).1
              ++ (processCycle (processCoin st c rows t).2 rest t).1)
      ∧ (∀ (st : DedupState) (c : String) (rows : List Row) (t : ℕ),
          (((processCoin st c rows t).1.map Signal.side).Sublist [Side.long, Side.short])
            ∧ ∀ s ∈ (processCoin st c rows t).1, s.coin = c)
      ∧ (∀ (st : DedupState) (c : String) (rows : List Row) (t : ℕ),
          t ≤ (longRows rows).length → t ≤ (shortRows rows).length →
          hasSignalChanged st (c, Side.long) (mkSignal c Side.long (longRows rows) t) = true →
          hasSignalChanged st (c, Side.short) (mkSignal c Side.short (shortRows rows) t) = true →
          (processCoin st c rows t).1
            = [mkSignal c Side.long (longRows rows) t,
               mkSignal c Side.short (shortRows rows) t]) := by
  refine ⟨fun st t c rows rest => rfl, fun st c rows t => ⟨?_, ?_⟩, ?_⟩
  · exact ((processSignals_out_sublist _ st).map Signal.side).trans
      (candidateSignals_map_side c rows t)
  · intro s hs
    exact mem_candidateSignals_coin ((processSignals_out_sublist _ st).mem hs)
  · intro st c rows t h1 h2 hcl hcs
    have hkey : ((c, Side.long) : SignalKey) ≠ (c, Side.short) := by
      intro h; exact Side.noConfusion (congrArg Prod.snd h)
    have e1 := processOneSignal_of_changed st (mkSignal c Side.long (longRows rows) t) hcl
    have hpre : hasSignalChanged (processOneSignal st (mkSignal c Side.long (longRows rows) t)).2
        ((mkSignal c Side.short (shortRows rows) t).coin,
          (mkSignal c Side.short (shortRows rows) t).side)
        (mkSignal c Side.short (shortRows rows) t) = true := by
      rw [e1]
      show hasSignalChanged
        (dedupStore st (c, Side.long) (getSignalKey (mkSignal c Side.long (longRows rows) t)))
        (c, Side.short) (mkSignal c Side.short (shortRows rows) t) = true
      rw [hasSignalChanged_store_other _ _ _ _ _ hkey, hcs]
    have e2 := processOneSignal_of_changed
      (processOneSignal st (mkSignal c Side.long (longRows rows) t)).2
      (mkSignal c Side.short (shortRows rows) t) hpre
    simp only [processCoin, candidateSignals, if_pos h1, if_pos h2, List.singleton_append]
    rw [e1] at e2
    rw [processSignals_pair, e1, e2]
    rfl

/-- C8 witness: one symbol, one long and one short wallet, threshold one,
fresh dedup state. -/
theorem claim8_dispatch_order_witness :
    (processCycle [] [("BTC", [⟨"0xA", some 1⟩, ⟨"0xB", some (-1)⟩])] 1).1
      = (processCoin [] "BTC" [⟨"0xA", some 1⟩, ⟨"0xB", some (-1)⟩] 1).1
        ++ (processCycle (processCoin [] "BTC" [⟨"0xA", some 1⟩, ⟨"0xB", some (-1)⟩] 1).2 [] 1).1
      ∧ (processCoin [] "BTC" [⟨"0xA", some 1⟩, ⟨"0xB", some (-1)⟩] 1).1
        = [mkSignal "BTC" Side.long (longRows [⟨"0xA", some 1⟩, ⟨"0xB", some (-1)⟩]) 1,
           mkSignal "BTC" Side.short (shortRows [⟨"0xA", some 1⟩, ⟨"0xB", some (-1)⟩]) 1] :=
  ⟨claim8_dispatch_order.1 [] 1 "BTC" [⟨"0xA", some 1⟩, ⟨"0xB", some (-1)⟩] [],
   claim8_dispatch_order.2.2 [] "BTC" [⟨"0xA", some 1⟩, ⟨"0xB", some (-1)⟩] 1
     (by decide) (by decide) rfl rfl⟩

theorem processSignals_single (st : DedupState) (s1 : Signal) :
    (processSignals st [s1]).1 = if (processOneSignal st s1).1 then [s1] else [] := by
  show ((if (processOneSignal st s1).1 then [s1] else []) ++ []) = _
  rw [List.append_nil]

theorem processOneSignal_not_dispatched (st : DedupState) (s : Signal)
    (h : dedupLookup st (s.coin, s.side) = some (getSignalKey s)) :
    processOneSignal st s = (false, st) := by
  simp [processOneSignal, hasSignalChanged, h]

theorem mkSignal_long_ne_short (c : String) (lr sr : List Row) (t : ℕ) :
    mkSignal c Side.long lr t ≠ mkSignal c Side.short sr t :=
  fun h => Side.noConfusion (congrArg Signal.side h)

/-- A candidate signal whose fingerprint is already stored for its key is
suppressed: it does not appear in the cycle's dispatched list. -/
theorem not_dispatched_of_unchanged (st : DedupState) (c : String) (rows : List Row) (t : ℕ)
    (s : Signal) (hs : s ∈ candidateSignals c rows t)
    (hlk : dedupLookup st (s.coin, s.side) = some (getSignalKey s)) :
    s ∉ (processCoin st c rows t).1 := by
  rcases mem_candidateSignals_iff.mp hs with ⟨h1, rfl⟩ | ⟨h2, rfl⟩
  · by_cases h2 : t ≤ (shortRows rows).length
    · simp only [processCoin, candidateSignals, if_pos h1, if_pos h2, List.singleton_append]
      rw [processSignals_pair, processOneSignal_not_dispatched st _ hlk]
      intro hmem
      rcases List.mem_append.mp hmem with hm | hm
      · simp at hm
      · have h : mkSignal c Side.long (longRows rows) t
            = mkSignal c Side.short (shortRows rows) t := by
          split at hm <;> simp_all
        exact mkSignal_long_ne_short c _ _ t h
    · simp only [processCoin, candidateSignals, if_pos h1, if_neg h2, List.append_nil]
      rw [processSignals_single, processOneSignal_not_dispatched st _ hlk]
      simp
  · by_cases h1 : t ≤ (longRows rows).length
    · simp only [processCoin, candidateSignals, if_pos h1, if_pos h2, List.singleton_append]
      rw [processSignals_pair]
      have hother : dedupLookup (processOneSignal st (mkSignal c Side.long (longRows rows) t)).2
          ((mkSignal c Side.short (shortRows rows) t).coin,
            (mkSignal c Side.short (shortRows rows) t).side)
          = some (getSignalKey (mkSignal c Side.short (shortRows rows) t)) := by
        rw [processOneSignal_lookup_other st _ _
          (fun h => Side.noConfusion (congrArg Prod.snd h))]
        exact hlk
      rw [processOneSignal_not_dispatched _ _ hother]
      intro hmem
      rcases List.mem_append.mp hmem with hm | hm
      · have : mkSignal c Side.short (shortRows rows) t = mkSignal c Side.long (longRows rows) t := by
          split at hm <;> simp_all
        exact (mkSignal_long_ne_short c _ _ t) this.symm
      · simp at hm
    · simp only [processCoin, candidateSignals, if_neg h1, if_pos h2, List.nil_append]
      rw [processSignals_single, processOneSignal_not_dispatched st _ hlk]
      simp

theorem runCoinCycles_lookup_preserved :
    ∀ (mids : List (List Row)) (st : DedupState) (c : String) (t : ℕ) (side : Side),
      (∀ rows ∈ mids, (sideRows side rows).length < t) →
      dedupLookup (runCoinCycles st c t mids) (c, side) = dedupLookup st (c, side) := by
  intro mids
  induction mids with
  | nil => intro st c t side _; rfl
  | cons rows rest ih =>
    intro st c t side h
    show dedupLookup (runCoinCycles (processCoin st c rows t).2 c t rest) (c, side) = _
    rw [ih _ c t side fun r hr => h r (List.mem_cons_of_mem _ hr)]
    exact processCoin_lookup_preserved st c rows t side (h rows (List.mem_cons_self _ _))

/-- C9: the dedup fingerprint of a `(symbol, side)` key is written only on
dispatch, and is never cleared: once stored, it survives any number of
below-threshold cycles, and a later candidate signal with the stored
fingerprint (in particular, the exact prior wallet/size composition) is
classified unchanged and not dispatched. -/
theorem claim9_fingerprint_persistence :
    (∀ (st : DedupState) (s : Signal),
        (processOneSignal st s).1 = false → (processOneSignal st s).2 = st)
      ∧ (∀ (st : DedupState) (s : Signal), (processOneSignal st s).1 = true →
          dedupLookup (processOneSignal st s).2 (s.coin, s.side) = some (getSignalKey s))
      ∧ (∀ (st : DedupState) (c : String) (t : ℕ) (side : Side) (fp : Fingerprint)
          (mids : List (List Row)) (rowsF : List Row),
          dedupLookup st (c, side) = some fp →
          (∀ rows ∈ mids, (sideRows side rows).length < t) →
          dedupLookup (runCoinCycles st c t mids) (c, side) = some fp
            ∧ (∀ s ∈ candidateSignals c rowsF t, s.side = side → getSignalKey s = fp →
                s ∉ (processCoin (runCoinCycles st c t mids) c rowsF t).1)) := by
  refine ⟨?_, ?_, ?_⟩
  · intro st s h
    by_cases hc : hasSignalChanged st (s.coin, s.side) s
    · exact absurd h (by simp [processOneSignal, hc])
    · simp [processOneSignal, hc]
  · intro st s h
    by_cases hc : hasSignalChanged st (s.coin, s.side) s
    · rw [processOneSignal_of_changed st s hc]
      exact dedupLookup_store_self st (s.coin, s.side) (getSignalKey s)
    · exact absurd h (by simp [processOneSignal, hc])
  · intro st c t side fp mids rowsF hlk hmids
    have hpres : dedupLookup (runCoinCycles st c t mids) (c, side) = some fp := by
      rw [runCoinCycles_lookup_preserved mids st c t side hmids]
      exact hlk
    refine ⟨hpres, ?_⟩
    intro s hs hside hkey
    refine not_dispatched_of_unchanged _ c rowsF t s hs ?_
    rw [mem_candidateSignals_coin hs, hside, hkey]
    exact hpres

/-- C9 witness: a stored fingerprint of a two-wallet long signal, one
below-threshold cycle, then the same composition recurring. -/
theorem claim9_fingerprint_persistence_witness :
    dedupLookup
        (runCoinCycles
          [(("BTC", Side.long),
            getSignalKey
              (mkSignal "BTC" Side.long (longRows [⟨"0xA", some 1⟩, ⟨"0xB", some 1⟩]) 2))]
          "BTC" 2 [[⟨"0xA", some 1⟩]]) ("BTC", Side.long)
      = some (getSignalKey
          (mkSignal "BTC" Side.long (longRows [⟨"0xA", some 1⟩, ⟨"0xB", some 1⟩]) 2))
      ∧ mkSignal "BTC" Side.long (longRows [⟨"0xA", some 1⟩, ⟨"0xB", some 1⟩]) 2
          ∉ (processCoin
              (runCoinCycles
                [(("BTC", Side.long),
                  getSignalKey
                    (mkSignal "BTC" Side.long (longRows [⟨"0xA", some 1⟩, ⟨"0xB", some 1⟩]) 2))]
                "BTC" 2 [[⟨"0xA", some 1⟩]])
              "BTC" [⟨"0xA", some 1⟩, ⟨"0xB", some 1⟩] 2).1 := by
  have h := claim9_fingerprint_persistence.2.2
    [(("BTC", Side.long),
      getSignalKey (mkSignal "BTC" Side.long (longRows [⟨"0xA", some 1⟩, ⟨"0xB", some 1⟩]) 2))]
    "BTC" 2 Side.long
    (getSignalKey (mkSignal "BTC" Side.long (longRows [⟨"0xA", some 1⟩, ⟨"0xB", some 1⟩]) 2))
    [[⟨"0xA", some 1⟩]] [⟨"0xA", some 1⟩, ⟨"0xB", some 1⟩] rfl (by decide)
  exact ⟨h.1, h.2 _ (by decide) rfl rfl⟩

/-- C3 (amended): for two candidate signals of the same symbol and side whose
rows all carry a present size above the 0.0001 dust filter, equal multisets
of `(wallet address, size rounded to 4 decimal places)` pairs — in whatever
list order — give equal signal fingerprints. -/
theorem claim3_fingerprint_reorder_invariant (s1 s2 : Signal)
    (hcoin : s1.coin = s2.coin) (hside : s1.side = s2.side)
    (h1 : s1.rows.all aboveDust = true) (h2 : s2.rows.all aboveDust = true)
    (hperm : (s1.rows.map roundedPair).Perm (s2.rows.map roundedPair)) :
    getSignalKey s1 = getSignalKey s2 := by
  have hwd : (walletData s1.rows).Perm (walletData s2.rows) := by
    rw [← walletData_eq_of_aboveDust s1.rows h1, ← walletData_eq_of_aboveDust s2.rows h2]
    exact hperm.filterMap _
  simp only [getSignalKey, Fingerprint.mk.injEq]
  exact ⟨hcoin, hside, hwd.length_eq, mergeSort_pairLE_canonical hwd⟩

/-- C3 counterexample: two candidate signals of the same symbol and side
whose wallet-row lists have the same multiset of `(address, size rounded to
4 decimals)` pairs in different orders, yet different fingerprints: the size
`0.0001` rounds to `0.0001` but fails the strict `abs(szi) > 0.0001` dust
filter of `_get_signal_key`, while `0.00014` rounds to the same `0.0001`
and passes it, so the fingerprints disagree in their pair count. -/
theorem claim3_counterexample :
    ((([⟨"0xA", some (1 / 10000)⟩, ⟨"0xB", some 1⟩] : List Row).map roundedPair).Perm
        (([⟨"0xB", some 1⟩, ⟨"0xA", some (14 / 100000)⟩] : List Row).map roundedPair))
      ∧ ([⟨"0xA", some (1 / 10000)⟩, ⟨"0xB", some 1⟩] : List Row)
          ≠ [⟨"0xB", some 1⟩, ⟨"0xA", some (14 / 100000)⟩]
      ∧ getSignalKey ⟨"BTC", Side.long, 2, 2, [⟨"0xA", some (1 / 10000)⟩, ⟨"0xB", some 1⟩]⟩
          ≠ getSignalKey ⟨"BTC", Side.long, 2, 2, [⟨"0xB", some 1⟩, ⟨"0xA", some (14 / 100000)⟩]⟩ := by
  refine ⟨?_, by decide, ?_⟩
  · have e1 : (([⟨"0xA", some (1 / 10000)⟩, ⟨"0xB", some 1⟩] : List Row).map roundedPair)
        = [("0xA", some (1 / 10000 : ℚ)), ("0xB", some 1)] := by decide
    have e2 : (([⟨"0xB", some 1⟩, ⟨"0xA", some (14 / 100000)⟩] : List Row).map roundedPair)
        = [("0xB", some (1 : ℚ)), ("0xA", some (1 / 10000))] := by decide
    rw [e1, e2]
    exact List.Perm.swap _ _ _
  · intro h
    exact absurd (congrArg Fingerprint.n h) (by decide)

/-- C3 witness: a concrete reordered pair of signals for the amended claim. -/
theorem claim3_fingerprint_reorder_invariant_witness :
    getSignalKey ⟨"BTC", Side.long, 2, 2, [⟨"0xA", some 1⟩, ⟨"0xB", some 2⟩]⟩
      = getSignalKey ⟨"BTC", Side.long, 2, 2, [⟨"0xB", some 2⟩, ⟨"0xA", some 1⟩]⟩ := by
  refine claim3_fingerprint_reorder_invariant _ _ rfl rfl (by decide) (by decide) ?_
  have e1 : (([⟨"0xA", some 1⟩, ⟨"0xB", some 2⟩] : List Row).map roundedPair)
      = [("0xA", some (1 : ℚ)), ("0xB", some 2)] := by decide
  have e2 : (([⟨"0xB", some 2⟩, ⟨"0xA", some 1⟩] : List Row).map roundedPair)
      = [("0xB", some (2 : ℚ)), ("0xA", some 1)] := by decide
  rw [e1, e2]
  exact List.Perm.swap _ _ _

/-- C4 counterexample: starting from a configuration with threshold `1`,
a `PATCH /config` request carrying `consensus_count = 0` is not rejected:
the handler stores the value, leaving the threshold below `1`. -/
theorem claim4_counterexample :
    (patchConfig ⟨[], ["BTC"], 1, 12⟩ [("consensus_count", 0)]).consensus_count < 1 := by
  decide

/-- C4 (amended): the `/set_consensus` command preserves `threshold ≥ 1`,
rejecting any value below `1`, but the `PATCH /config` endpoint stores any
supplied integer `consensus_count` without a lower bound, so the invariant
can be broken through `PATCH`. -/
theorem claim4_threshold_invariant :
    (∀ (cfg : Config) (arg : Option ℤ), 1 ≤ cfg.consensus_count →
        1 ≤ ((setConsensusCommand cfg arg).1).consensus_count)
      ∧ (∀ (cfg : Config) (v : ℤ),
          (patchConfig cfg [("consensus_count", v)]).consensus_count = v) := by
  constructor
  · intro cfg arg h
    match arg with
    | none => exact h
    | some v =>
      by_cases hv : v < 1
      · simp only [setConsensusCommand, if_pos hv]
        exact h
      · simp only [setConsensusCommand, if_neg hv]
        exact not_lt.mp hv
  · intro cfg v
    rfl

/-- C4 witness: threshold one, a rejected `/set_consensus 0`, and a `PATCH`
that stores `0`. -/
theorem claim4_threshold_invariant_witness :
    (1 ≤ (⟨[], ["BTC"], 1, 12⟩ : Config).consensus_count →
        1 ≤ ((setConsensusCommand ⟨[], ["BTC"], 1, 12⟩ (some 0)).1).consensus_count)
      ∧ (patchConfig ⟨[], ["BTC"], 1, 12⟩ [("consensus_count", 0)]).consensus_count = 0 :=
  ⟨fun h => claim4_threshold_invariant.1 ⟨[], ["BTC"], 1, 12⟩ (some 0) h,
   claim4_threshold_invariant.2 ⟨[], ["BTC"], 1, 12⟩ 0⟩

/-- C5 counterexample: on the `/stats` path (`send_stats_report` line 846),
a missing entry price does not give a null PnL: the handler substitutes the
number `0` (`... if (entry and px) else 0`), contradicting the claim that
an absent operand yields null on every row-building path. -/
theorem claim5_counterexample : statsUpnl none (some 100) 1 = 0 := rfl

/-- C5 (amended): on the main poll loop and `/last` paths, notional value is
`|size| * mark` exactly when size and mark are present and null otherwise,
and unrealized PnL is `(mark - entry) * size` exactly when size, entry and
mark are present and null otherwise.  On the snapshot path the same
formulas are guarded by Python truthiness, so a present-but-zero operand
yields null; on the `/stats` path the PnL falls back to the number `0`
(never null) whenever entry or mark is absent or zero. -/
theorem claim5_value_pnl_formulas :
    (∀ s p : ℚ, loopValue (some s) (some p) = some (|s| * p))
      ∧ (∀ o : Option ℚ, loopValue o none = none)
      ∧ (∀ o : Option ℚ, loopValue none o = none)
      ∧ (∀ s e p : ℚ, loopUpnl (some s) (some e) (some p) = some ((p - e) * s))
      ∧ (∀ (szi entry px : Option ℚ), szi = none ∨ entry = none ∨ px = none →
          loopUpnl szi entry px = none)
      ∧ (∀ s p : ℚ, s ≠ 0 → p ≠ 0 → snapValue (some s) (some p) = some (|s| * p))
      ∧ (∀ o : Option ℚ, snapValue (some 0) o = none)
      ∧ (∀ s e p : ℚ, s ≠ 0 → e ≠ 0 → p ≠ 0 →
          snapUpnl (some s) (some e) (some p) = some ((p - e) * s))
      ∧ (∀ (s : ℚ) (o : Option ℚ), snapUpnl (some s) (some 0) o = none)
      ∧ (∀ (e p : ℚ) (s : ℚ), e ≠ 0 → p ≠ 0 → statsUpnl (some e) (some p) s = (p - e) * s)
      ∧ (∀ (o : Option ℚ) (s : ℚ), statsUpnl none o s = 0)
      ∧ (∀ (o : Option ℚ) (s : ℚ), statsUpnl o none s = 0)
      ∧ (∀ (o : Option ℚ) (s : ℚ), statsUpnl (some 0) o s = 0) := by
  refine ⟨fun s p => rfl, fun o => ?_, fun o => rfl, fun s e p => rfl, ?_, ?_, ?_, ?_, ?_,
    ?_, fun o s => rfl, ?_, ?_⟩
  · cases o <;> rfl
  · rintro szi entry px (rfl | rfl | rfl)
    · rfl
    · cases szi <;> rfl
    · cases szi <;> cases entry <;> rfl
  · intro s p hs hp
    simp [snapValue, hs, hp]
  · intro o
    cases o <;> simp [snapValue]
  · intro s e p hs he hp
    simp [snapUpnl, hs, he, hp]
  · intro s o
    cases o <;> simp [snapUpnl]
  · intro e p s he hp
    simp [statsUpnl, he, hp]
  · intro o s
    cases o <;> rfl
  · intro o s
    cases o <;> simp [statsUpnl]

/-- C5 witness: size 2, entry 100, mark 110 on every path, plus the
degenerate operands. -/
theorem claim5_value_pnl_formulas_witness :
    loopValue (some 2) (some 110) = some (|(2 : ℚ)| * 110)
      ∧ loopUpnl (some 2) (some 100) (some 110) = some (((110 : ℚ) - 100) * 2)
      ∧ snapValue (some 2) (some 110) = some (|(2 : ℚ)| * 110)
      ∧ snapUpnl (some 2) (some 100) (some 110) = some (((110 : ℚ) - 100) * 2)
      ∧ statsUpnl (some 100) (some 110) 2 = ((110 : ℚ) - 100) * 2 :=
  ⟨claim5_value_pnl_formulas.1 2 110,
   claim5_value_pnl_formulas.2.2.2.1 2 100 110,
   claim5_value_pnl_formulas.2.2.2.2.2.1 2 110 (by decide) (by decide),
   claim5_value_pnl_formulas.2.2.2.2.2.2.2.1 2 100 110 (by decide) (by decide) (by decide),
   claim5_value_pnl_formulas.2.2.2.2.2.2.2.2.2.1 100 110 2 (by decide) (by decide)⟩

/-- C6: the `/add_wallet` handler rejects an argument that fails the
`0x` + 40 hex-digit pattern leaving the wallet list unchanged, rejects an
already-present valid address as a duplicate leaving the list unchanged,
and appends exactly the valid absent addresses. -/
theorem claim6_add_wallet_validation (wallets : List String) (arg : String) :
    (isValidWallet arg = false →
        (addWallet wallets arg).1 = wallets ∧ (addWallet wallets arg).2 ≠ AddReply.added)
      ∧ (isValidWallet arg = true → arg ∈ wallets →
          addWallet wallets arg = (wallets, AddReply.duplicate))
      ∧ (isValidWallet arg = true → arg ∉ wallets →
          addWallet wallets arg = (wallets ++ [arg], AddReply.added)) := by
  refine ⟨?_, ?_, ?_⟩
  · intro h
    by_cases he : arg = ""
    · simp [addWallet, he]
    · simp [addWallet, he, h]
  · intro h hmem
    have he : arg ≠ "" := by
      intro he
      rw [he] at h
      exact absurd h (by decide)
    simp [addWallet, he, h, hmem]
  · intro h hmem
    have he : arg ≠ "" := by
      intro he
      rw [he] at h
      exact absurd h (by decide)
    simp [addWallet, he, h, hmem]

/-- C6 witness: a 39-character argument is rejected, a present valid
address is a duplicate, an absent valid address is appended. -/
theorem claim6_add_wallet_validation_witness :
    (isValidWallet "0xAAAAAAAAAAAAAAAAAAAAAAAAAAAAAAAAAAAAAAA" = false →
        (addWallet ["0xBBBBBBBBBBBBBBBBBBBBBBBBBBBBBBBBBBBBBBBB"]
            "0xAAAAAAAAAAAAAAAAAAAAAAAAAAAAAAAAAAAAAAA").1
          = ["0xBBBBBBBBBBBBBBBBBBBBBBBBBBBBBBBBBBBBBBBB"]
        ∧ (addWallet ["0xBBBBBBBBBBBBBBBBBBBBBBBBBBBBBBBBBBBBBBBB"]
            "0xAAAAAAAAAAAAAAAAAAAAAAAAAAAAAAAAAAAAAAA").2 ≠ AddReply.added)
      ∧ (isValidWallet "0xBBBBBBBBBBBBBBBBBBBBBBBBBBBBBBBBBBBBBBBB" = true →
          "0xBBBBBBBBBBBBBBBBBBBBBBBBBBBBBBBBBBBBBBBB"
              ∈ ["0xBBBBBBBBBBBBBBBBBBBBBBBBBBBBBBBBBBBBBBBB"] →
          addWallet ["0xBBBBBBBBBBBBBBBBBBBBBBBBBBBBBBBBBBBBBBBB"]
              "0xBBBBBBBBBBBBBBBBBBBBBBBBBBBBBBBBBBBBBBBB"
            = (["0xBBBBBBBBBBBBBBBBBBBBBBBBBBBBBBBBBBBBBBBB"], AddReply.duplicate))
      ∧ (isValidWallet "0xAAAAAAAAAAAAAAAAAAAAAAAAAAAAAAAAAAAAAAAA" = true →
          "0xAAAAAAAAAAAAAAAAAAAAAAAAAAAAAAAAAAAAAAAA"
              ∉ ["0xBBBBBBBBBBBBBBBBBBBBBBBBBBBBBBBBBBBBBBBB"] →
          addWallet ["0xBBBBBBBBBBBBBBBBBBBBBBBBBBBBBBBBBBBBBBBB"]
              "0xAAAAAAAAAAAAAAAAAAAAAAAAAAAAAAAAAAAAAAAA"
            = (["0xBBBBBBBBBBBBBBBBBBBBBBBBBBBBBBBBBBBBBBBB",
                "0xAAAAAAAAAAAAAAAAAAAAAAAAAAAAAAAAAAAAAAAA"], AddReply.added)) :=
  ⟨(claim6_add_wallet_validation ["0xBBBBBBBBBBBBBBBBBBBBBBBBBBBBBBBBBBBBBBBB"]
      "0xAAAAAAAAAAAAAAAAAAAAAAAAAAAAAAAAAAAAAAA").1,
   (claim6_add_wallet_validation ["0xBBBBBBBBBBBBBBBBBBBBBBBBBBBBBBBBBBBBBBBB"]
      "0xBBBBBBBBBBBBBBBBBBBBBBBBBBBBBBBBBBBBBBBB").2.1,
   (claim6_add_wallet_validation ["0xBBBBBBBBBBBBBBBBBBBBBBBBBBBBBBBBBBBBBBBB"]
      "0xAAAAAAAAAAAAAAAAAAAAAAAAAAAAAAAAAAAAAAAA").2.2⟩

/-- C7 counterexample: the command name is not matched case-insensitively
on every branch: `/LAST`, `/Status`, `/CONFIG` and `/Stats` fall through to
the "command not recognized" reply even though their lowercase forms are
recognized commands, because those four branches compare the raw text. -/
theorem claim7_counterexample :
    routeCommand "/LAST" = Cmd.unrecognized ∧ routeCommand "/last" = Cmd.lastCmd
      ∧ routeCommand "/Status" = Cmd.unrecognized ∧ routeCommand "/status" = Cmd.statusCmd
      ∧ routeCommand "/CONFIG" = Cmd.unrecognized ∧ routeCommand "/config" = Cmd.configCmd
      ∧ routeCommand "/Stats" = Cmd.unrecognized ∧ routeCommand "/stats" = Cmd.statsCmd := by
  decide

theorem routeCommand_raw_inv (s : String) :
    (routeCommand s = Cmd.lastCmd → s = "/last" ∨ s = "/latest")
      ∧ (routeCommand s = Cmd.statusCmd → s = "/status")
      ∧ (routeCommand s = Cmd.configCmd → s = "/config")
      ∧ (routeCommand s = Cmd.statsCmd → s = "/stats") := by
  unfold routeCommand
  by_cases c1 : lowerTrim s = "/start" ∨ lowerTrim s = "/help"
  · rw [if_pos c1]
    exact ⟨fun h => absurd h (by decide), fun h => absurd h (by decide),
      fun h => absurd h (by decide), fun h => absurd h (by decide)⟩
  rw [if_neg c1]
  by_cases c2 : lowerTrim s = "/commands" ∨ lowerTrim s = "/ejemplos"
      ∨ lowerTrim s = "/examples"
  · rw [if_pos c2]
    exact ⟨fun h => absurd h (by decide), fun h => absurd h (by decide),
      fun h => absurd h (by decide), fun h => absurd h (by decide)⟩
  rw [if_neg c2]
  by_cases c3 : strStartsWith (lowerTrim s) "/add_wallet " = true
  · rw [if_pos c3]
    exact ⟨fun h => absurd h (by decide), fun h => absurd h (by decide),
      fun h => absurd h (by decide), fun h => absurd h (by decide)⟩
  rw [if_neg c3]
  by_cases c4 : strStartsWith (lowerTrim s) "/remove_wallet " = true
  · rw [if_pos c4]
    exact ⟨fun h => absurd h (by decide), fun h => absurd h (by decide),
      fun h => absurd h (by decide), fun h => absurd h (by decide)⟩
  rw [if_neg c4]
  by_cases c5 : strStartsWith (lowerTrim s) "/add_coin " = true
  · rw [if_pos c5]
    exact ⟨fun h => absurd h (by decide), fun h => absurd h (by decide),
      fun h => absurd h (by decide), fun h => absurd h (by decide)⟩
  rw [if_neg c5]
  by_cases c6 : strStartsWith (lowerTrim s) "/remove_coin " = true
  · rw [if_pos c6]
    exact ⟨fun h => absurd h (by decide), fun h => absurd h (by decide),
      fun h => absurd h (by decide), fun h => absurd h (by decide)⟩
  rw [if_neg c6]
  by_cases c7 : strStartsWith (lowerTrim s) "/set_consensus " = true
  · rw [if_pos c7]
    exact ⟨fun h => absurd h (by decide), fun h => absurd h (by decide),
      fun h => absurd h (by decide), fun h => absurd h (by decide)⟩
  rw [if_neg c7]
  by_cases c8 : strStartsWith (lowerTrim s) "/set_interval " = true
  · rw [if_pos c8]
    exact ⟨fun h => absurd h (by decide), fun h => absurd h (by decide),
      fun h => absurd h (by decide), fun h => absurd h (by decide)⟩
  rw [if_neg c8]
  by_cases c9 : lowerTrim s = "/reload" ∨ lowerTrim s = "/refresh" ∨ lowerTrim s = "/update"
  · rw [if_pos c9]
    exact ⟨fun h => absurd h (by decide), fun h => absurd h (by decide),
      fun h => absurd h (by decide), fun h => absurd h (by decide)⟩
  rw [if_neg c9]
  by_cases c10 : s = "/last" ∨ s = "/latest"
  · rw [if_pos c10]
    exact ⟨fun _ => c10, fun h => absurd h (by decide),
      fun h => absurd h (by decide), fun h => absurd h (by decide)⟩
  rw [if_neg c10]
  by_cases c11 : s = "/status"
  · rw [if_pos c11]
    exact ⟨fun h => absurd h (by decide), fun _ => c11,
      fun h => absurd h (by decide), fun h => absurd h (by decide)⟩
  rw [if_neg c11]
  by_cases c12 : s = "/config"
  · rw [if_pos c12]
    exact ⟨fun h => absurd h (by decide), fun h => absurd h (by decide),
      fun _ => c12, fun h => absurd h (by decide)⟩
  rw [if_neg c12]
  by_cases c13 : s = "/stats"
  · rw [if_pos c13]
    exact ⟨fun h => absurd h (by decide), fun h => absurd h (by decide),
      fun h => absurd h (by decide), fun _ => c13⟩
  rw [if_neg c13]
  exact ⟨fun h => absurd h (by decide), fun h => absurd h (by decide),
    fun h => absurd h (by decide), fun h => absurd h (by decide)⟩

/-- C7 (amended): the branches through `/reload` match on the trimmed,
lowercased text, so any casing of `/start`, `/help`, the examples aliases,
the argument commands and the reload aliases reaches the same handler; but
`/last`, `/latest`, `/status`, `/config` and `/stats` are compared
case-sensitively against the raw text, and their casing variants reach the
"command not recognized" reply. -/
theorem claim7_case_sensitivity :
    (∀ s : String, lowerTrim s = "/help" → routeCommand s = Cmd.help)
      ∧ (∀ s : String, lowerTrim s = "/reload" → routeCommand s = Cmd.reloadCmd)
      ∧ (∀ s : String, strStartsWith (lowerTrim s) "/add_wallet " = true →
          routeCommand s = Cmd.addWalletCmd)
      ∧ (∀ s : String, routeCommand s = Cmd.lastCmd ↔ s = "/last" ∨ s = "/latest")
      ∧ (∀ s : String, routeCommand s = Cmd.statsCmd ↔ s = "/stats") := by
  refine ⟨?_, ?_, ?_, ?_, ?_⟩
  · intro s h
    unfold routeCommand
    rw [h, if_pos (Or.inr rfl)]
  · intro s h
    unfold routeCommand
    rw [h, if_neg (by decide), if_neg (by decide), if_neg (by decide), if_neg (by decide),
      if_neg (by decide), if_neg (by decide), if_neg (by decide), if_neg (by decide),
      if_pos (Or.inl rfl)]
  · intro s h
    have h1 : ¬(lowerTrim s = "/start" ∨ lowerTrim s = "/help") := by
      rintro (hc | hc) <;> rw [hc] at h <;> exact absurd h (by decide)
    have h2 : ¬(lowerTrim s = "/commands" ∨ lowerTrim s = "/ejemplos"
        ∨ lowerTrim s = "/examples") := by
      rintro (hc | hc | hc) <;> rw [hc] at h <;> exact absurd h (by decide)
    unfold routeCommand
    rw [if_neg h1, if_neg h2, if_pos h]
  · intro s
    exact ⟨(routeCommand_raw_inv s).1, by rintro (rfl | rfl) <;> decide⟩
  · intro s
    exact ⟨(routeCommand_raw_inv s).2.2.2, by rintro rfl; decide⟩

/-- C7 witness: concrete texts for each amended case. -/
theorem claim7_case_sensitivity_witness :
    routeCommand "  /HELP " = Cmd.help
      ∧ routeCommand "/Reload" = Cmd.reloadCmd
      ∧ routeCommand "/ADD_WALLET 0xabc" = Cmd.addWalletCmd
      ∧ (routeCommand "/last" = Cmd.lastCmd ↔ "/last" = "/last" ∨ "/last" = "/latest")
      ∧ (routeCommand "/stats" = Cmd.statsCmd ↔ "/stats" = "/stats") :=
  ⟨claim7_case_sensitivity.1 "  /HELP " (by decide),
   claim7_case_sensitivity.2.1 "/Reload" (by decide),
   claim7_case_sensitivity.2.2.1 "/ADD_WALLET 0xabc" (by decide),
   claim7_case_sensitivity.2.2.2.1 "/last",
   claim7_case_sensitivity.2.2.2.2 "/stats"⟩

/-- C10: the `/add_wallet` duplicate check is exact, case-sensitive string
membership while `/remove_wallet` matches stored wallets case-insensitively:
a hex-case variant of an address already in the wallet list passes
validation, is not rejected as a duplicate, and is appended as a second
entry for the same on-chain address — which `/remove_wallet` would match. -/
theorem claim10_case_variant_duplicate (ws : List String) (w w' : String)
    (hmem : w ∈ ws) (hvalid : isValidWallet w' = true) (_hne : w' ≠ w)
    (hlower : strLower w' = strLower w) (hnotmem : w' ∉ ws) :
    addWallet ws w' = (ws ++ [w'], AddReply.added)
      ∧ (removeWallet ws w').2 ≠ RemoveReply.notFound := by
  have he : w' ≠ "" := by
    intro he
    rw [he] at hvalid
    exact absurd hvalid (by decide)
  constructor
  · simp [addWallet, he, hvalid, hnotmem]
  · have hmatch : matchesRemove w w' = true := by
      simp [matchesRemove, hlower]
    have hfind : (ws.find? fun x => matchesRemove x w').isSome := by
      rw [List.find?_isSome]
      exact ⟨w, hmem, hmatch⟩
    obtain ⟨x, hx⟩ := Option.isSome_iff_exists.mp hfind
    simp [removeWallet, he, hx]

/-- C10 witness: an address and its variant with the first hex letter in
lower case. -/
theorem claim10_case_variant_duplicate_witness :
    addWallet ["0xAAAAAAAAAAAAAAAAAAAAAAAAAAAAAAAAAAAAAAAA"]
        "0xaAAAAAAAAAAAAAAAAAAAAAAAAAAAAAAAAAAAAAAA"
      = (["0xAAAAAAAAAAAAAAAAAAAAAAAAAAAAAAAAAAAAAAAA",
          "0xaAAAAAAAAAAAAAAAAAAAAAAAAAAAAAAAAAAAAAAA"], AddReply.added)
      ∧ (removeWallet ["0xAAAAAAAAAAAAAAAAAAAAAAAAAAAAAAAAAAAAAAAA"]
          "0xaAAAAAAAAAAAAAAAAAAAAAAAAAAAAAAAAAAAAAAA").2 ≠ RemoveReply.notFound :=
  claim10_case_variant_duplicate ["0xAAAAAAAAAAAAAAAAAAAAAAAAAAAAAAAAAAAAAAAA"]
    "0xAAAAAAAAAAAAAAAAAAAAAAAAAAAAAAAAAAAAAAAA" "0xaAAAAAAAAAAAAAAAAAAAAAAAAAAAAAAAAAAAAAAA"
    (by decide) (by decide) (by decide) (by decide) (by decide)

end HLBot
